import Mathlib

/-!
Shallow embedding of the `redo` crate's linear history engine (`src/record.rs`,
with the `Command` contract and `Merge` enum of `src/lib.rs`).

Modelling conventions:
* `VecDeque<C>` is a `List C` (front = head, `push_back` appends, `pop_front`
  drops the head, `back_mut` is the last element, `split_off(i)` is
  `take i` / `drop i`).
* A Rust method on `&mut self` that also returns a value is a Lean function
  from the old state to the pair of the new state and the return value.
* The observer callback (`signals: Option<Box<FnMut(Signal)>>`) is modelled by
  returning the list of `Signal` values in the order the source would invoke
  the callback with them (the callback itself keeps no state the record reads).
* `Command` operations take `&mut self` and `&mut R`; they are modelled as
  functions `C → R → Except E (C × R)` returning the updated command and
  receiver.  A failing operation is modelled as returning only the error: the
  spec's Command contract states that a failing apply/undo/redo does not
  mutate the receiver observably, and the record's own fields are untouched on
  the error paths of the source.
* Out-of-range indexing and `split_off` past the end panic in Rust; the
  embedding totalises them (`List.get?` fallback, total `take`/`drop`) and the
  theorems that depend on it carry the invariant `cursor ≤ len`, which rules
  the panics out.
-/

namespace Redo

/-- Signals of `src/record.rs` (`Undo`, `Redo`, `Saved`, `Active {old, new}`). -/
inductive Signal where
  | undo (b : Bool)
  | redo (b : Bool)
  | saved (b : Bool)
  | active (old new : Nat)
deriving DecidableEq, Repr

/-- Result of merging two commands, from `src/lib.rs` (`Merge<C>`):
the commands have been merged (`yes`), have not been merged (`no`, carrying
the rejected command), or cancel each other out (`annul`, documented in
lib.rs as removing both commands). -/
inductive Merge (C : Type) where
  | yes
  | no (command : C)
  | annul
deriving DecidableEq, Repr

/-- The interpretation `record.rs` gives the merge outcome.  `record.rs`
consumes it as `last.merge(cmd).err()` — it was written against a `merge`
returning `Result<(), Self>` (`Ok` = merged, `Err(cmd)` = push `cmd`), and
lib.rs's `Merge` enum has no `err` method, so the crate's two files do not
agree.  `yes ↦ none` and `no c ↦ some c` are the two outcomes record.rs
handles; `annul`, which record.rs has no branch for (it is not an `Err`
carrying a command to push), is mapped to `none`, making explicit that the
documented annul behaviour (pop the previous top) is absent from record.rs. -/
def Merge.err : Merge C → Option C
  | .yes => none
  | .no c => some c
  | .annul => none

/-- The `Command<R>` contract of `src/lib.rs` for a command data type `C`
with error type `E`: `apply`, `undo`, `redo` (whose default implementation
forwards to `apply`), and `merge` (mutating the callee and returning a
`Merge` outcome). -/
structure Command (R C E : Type) where
  apply : C → R → Except E (C × R)
  undo : C → R → Except E (C × R)
  redo : C → R → Except E (C × R)
  merge : C → C → C × Merge C

/-- Modelled from the spec: the `Error` value (`src/result.rs` is not among
the repository's files) — "the failure return that carries back the rejected
command plus the command-defined error".  record.rs constructs it as
`Error(cmd, e)`. -/
structure Error (C E : Type) where
  command : C
  error : E
deriving DecidableEq, Repr

/-- The `Record` state of `src/record.rs` (the observer callback is modelled
by the signal traces the operations return, see the file comment). -/
structure Record (R C : Type) where
  commands : List C
  receiver : R
  cursor : Nat
  limit : Nat
  saved : Option Nat
deriving DecidableEq, Repr

variable {R C E : Type}

/-- `Record::new`: empty command deque, cursor 0, no limit, `saved = Some(0)`. -/
def Record.new (receiver : R) : Record R C :=
  { commands := [], receiver := receiver, cursor := 0, limit := 0, saved := some 0 }

/-- `RecordBuilder` (the observer callback is omitted, see the file comment). -/
structure RecordBuilder where
  capacity : Nat
  limit : Nat
deriving DecidableEq, Repr

/-- `Record::builder()`. -/
def Record.builder : RecordBuilder :=
  { capacity := 0, limit := 0 }

/-- `RecordBuilder::build`: `with_capacity` only pre-allocates, so the
command list starts empty; cursor 0, the builder's limit, `saved = Some(0)`. -/
def RecordBuilder.build (b : RecordBuilder) (receiver : R) : Record R C :=
  { commands := [], receiver := receiver, cursor := 0, limit := b.limit, saved := some 0 }

/-- `RecordBuilder::default`: `build` with the receiver type's default value. -/
def RecordBuilder.buildDefault [Inhabited R] (b : RecordBuilder) : Record R C :=
  b.build (default : R)

/-- `impl Default for Record`: `Record::new(R::default())`. -/
def Record.defaultRecord [Inhabited R] : Record R C :=
  Record.new (default : R)

/-- `impl From<R> for Record`: `Record::new(receiver)`. -/
def Record.fromReceiver (receiver : R) : Record R C :=
  Record.new receiver

/-- `Record::len`. -/
def Record.len (r : Record R C) : Nat :=
  r.commands.length

/-- `Record::is_empty`. -/
def Record.isEmpty (r : Record R C) : Bool :=
  r.commands.isEmpty

/-- `Record::limit`: `None` when the stored limit is 0. -/
def Record.limitQuery (r : Record R C) : Option Nat :=
  match r.limit with
  | 0 => none
  | v => some v

/-- `Record::can_undo`: `cursor > 0`. -/
def Record.canUndo (r : Record R C) : Bool :=
  decide (0 < r.cursor)

/-- `Record::can_redo`: `cursor < len`. -/
def Record.canRedo (r : Record R C) : Bool :=
  decide (r.cursor < r.len)

/-- `Record::is_saved`: `saved.map_or(false, |saved| saved == cursor)`. -/
def Record.isSaved (r : Record R C) : Bool :=
  (r.saved.map (fun s => s == r.cursor)).getD false

/-- `Record::set_saved`: set `saved` to the cursor; emit `Saved(true)` only
when the receiver went from unsaved to saved. -/
def Record.setSaved (r : Record R C) : Record R C × List Signal :=
  let wasSaved := r.isSaved
  ({ r with saved := some r.cursor },
   if !wasSaved then [Signal.saved true] else [])

/-- `Record::set_unsaved`: clear `saved`; emit `Saved(false)` only when the
receiver went from saved to unsaved. -/
def Record.setUnsaved (r : Record R C) : Record R C × List Signal :=
  let wasSaved := r.isSaved
  ({ r with saved := none },
   if wasSaved then [Signal.saved false] else [])

/-- `Record::clear`: wipe the commands, reset `cursor = 0` and
`saved = Some(0)`, leave the receiver untouched, and emit the signals of the
source in its order. -/
def Record.clear (r : Record R C) : Record R C × List Signal :=
  let couldUndo := r.canUndo
  let couldRedo := r.canRedo
  let wasSaved := r.isSaved
  let old := r.cursor
  ({ r with commands := [], cursor := 0, saved := some 0 },
   (if old ≠ 0 then [Signal.active old 0] else []) ++
   (if couldUndo then [Signal.undo false] else []) ++
   (if couldRedo then [Signal.redo false] else []) ++
   (if !wasSaved then [Signal.saved true] else []))

/-- The merge attempt of `Record::apply` (`record.rs` lines 281–284):
`match self.commands.back_mut() { Some(ref mut last) if !was_saved =>
last.merge(cmd).err(), _ => Some(cmd) }`.  Returns the command list with the
possibly mutated top and the command still to push, if any. -/
def Record.mergeStep (impl : Command R C E) (commands : List C) (wasSaved : Bool)
    (cmd : C) : List C × Option C :=
  match commands.getLast? with
  | some last =>
    if wasSaved then (commands, some cmd)
    else
      let m := impl.merge last cmd
      (commands.dropLast ++ [m.1], m.2.err)
  | none => (commands, some cmd)

/-- The push step of `Record::apply` (`record.rs` lines 286–294): when a
command is left to push, either pop the front and decrement `saved`
(`checked_sub`) when the limit is reached, or advance the cursor; then push
the command at the back. -/
def Record.pushStep (limit cursor : Nat) (saved : Option Nat) (commands : List C)
    (cmdToPush : Option C) : List C × Nat × Option Nat :=
  match cmdToPush with
  | some cmd =>
    if limit ≠ 0 ∧ limit = cursor then
      (commands.tail ++ [cmd], cursor,
       saved.bind (fun s => if s = 0 then none else some (s - 1)))
    else
      (commands ++ [cmd], cursor + 1, saved)
  | none => (commands, cursor, saved)

/-- The saved-marker repair of `Record::apply` (`record.rs` lines 277–279):
`if self.saved.map_or(false, |saved| saved > self.cursor) { self.saved = None }`. -/
def Record.savedRepair (saved : Option Nat) (cursor : Nat) : Option Nat :=
  match saved with
  | some s => if cursor < s then none else some s
  | none => none

/-- Steps 3–5 of `Record::apply` on the truncated command list: repair the
saved marker, attempt the merge, then push.  Yields the new command list,
cursor and saved marker. -/
def Record.applyCore (impl : Command R C E) (r : Record R C) (cmd : C) :
    List C × Nat × Option Nat :=
  Record.pushStep r.limit r.cursor (Record.savedRepair r.saved r.cursor)
    (Record.mergeStep impl (r.commands.take r.cursor) r.isSaved cmd).1
    (Record.mergeStep impl (r.commands.take r.cursor) r.isSaved cmd).2

/-- `Record::apply` (`record.rs` lines 264–317).  Returns the new record, the
signal trace, and the return value: `Ok` with the truncated tail (the
iterator) or the `Error` carrying the rejected command.  On `Err` the record
is returned unchanged and no signal is emitted, as in the source's early
return. -/
def Record.apply (impl : Command R C E) (r : Record R C) (cmd : C) :
    Record R C × List Signal × Except (Error C E) (List C) :=
  match impl.apply cmd r.receiver with
  | .error e => (r, [], .error ⟨cmd, e⟩)
  | .ok (cmd, receiver) =>
    let old := r.cursor
    let couldUndo := r.canUndo
    let couldRedo := r.canRedo
    let wasSaved := r.isSaved
    let tail := r.commands.drop r.cursor
    let core := Record.applyCore impl r cmd
    let record : Record R C :=
      { commands := core.1, receiver := receiver, cursor := core.2.1,
        limit := r.limit, saved := core.2.2 }
    (record,
     [Signal.active old record.cursor] ++
     (if couldRedo then [Signal.redo false] else []) ++
     (if !couldUndo then [Signal.undo true] else []) ++
     (if wasSaved then [Signal.saved false] else []),
     .ok tail)

/-- `Record::undo` (`record.rs` lines 326–355).  Returns the new record, the
signal trace, and `None` when the record cannot undo, otherwise `Some` of the
command's result.  On `Err` the record is unchanged and no signal is
emitted. -/
def Record.undo (impl : Command R C E) (r : Record R C) :
    Record R C × List Signal × Option (Except E Unit) :=
  if !r.canUndo then (r, [], none)
  else
    match r.commands.get? (r.cursor - 1) with
    | none => (r, [], none)
    | some c =>
      match impl.undo c r.receiver with
      | .error e => (r, [], some (.error e))
      | .ok (c, receiver) =>
        let wasSaved := r.isSaved
        let old := r.cursor
        let r' : Record R C :=
          { r with commands := r.commands.set (r.cursor - 1) c,
                   receiver := receiver, cursor := r.cursor - 1 }
        let len := r'.len
        let isSaved := r'.isSaved
        (r',
         [Signal.active old r'.cursor] ++
         (if old = len then [Signal.redo true] else []) ++
         (if old = 1 then [Signal.undo false] else []) ++
         (if wasSaved ≠ isSaved then [Signal.saved isSaved] else []),
         some (.ok ()))

/-- `Record::redo` (`record.rs` lines 366–395).  The source invokes
`self.commands[self.cursor].apply(&mut self.receiver)` — the command's
`apply`, not its `redo`.  Returns the new record, the signal trace, and
`None` when the record cannot redo, otherwise `Some` of the command's
result. -/
def Record.redo (impl : Command R C E) (r : Record R C) :
    Record R C × List Signal × Option (Except E Unit) :=
  if !r.canRedo then (r, [], none)
  else
    match r.commands.get? r.cursor with
    | none => (r, [], none)
    | some c =>
      match impl.apply c r.receiver with
      | .error e => (r, [], some (.error e))
      | .ok (c, receiver) =>
        let wasSaved := r.isSaved
        let old := r.cursor
        let r' : Record R C :=
          { r with commands := r.commands.set r.cursor c,
                   receiver := receiver, cursor := r.cursor + 1 }
        let len := r'.len
        let isSaved := r'.isSaved
        (r',
         [Signal.active old r'.cursor] ++
         (if old = len - 1 then [Signal.redo false] else []) ++
         (if old = 0 then [Signal.undo true] else []) ++
         (if wasSaved ≠ isSaved then [Signal.saved isSaved] else []),
         some (.ok ()))

/-- Folds `Record::apply` over a list of commands, keeping each call's
resulting record (the source's callers do exactly this; failed applies leave
the record unchanged by `Record.apply`). -/
def Record.applyList (impl : Command R C E) : Record R C → List C → Record R C
  | r, [] => r
  | r, c :: cs => Record.applyList impl (Record.apply impl r c).1 cs

/-- A command family over receiver `Nat` in the style of the crate's doc
examples: the command data is a tag, `apply` increments the receiver, `undo`
decrements it, `redo` has the default implementation (forwards to `apply`),
and `merge` never merges. -/
def tagImpl : Command Nat Nat Unit where
  apply := fun c r => .ok (c, r + 1)
  undo := fun c r => .ok (c, r - 1)
  redo := fun c r => .ok (c, r + 1)
  merge := fun a b => (a, .no b)

/-- A command family whose every operation fails, for the error-path
witnesses. -/
def failImpl : Command Nat Nat Unit where
  apply := fun _ _ => .error ()
  undo := fun _ _ => .error ()
  redo := fun _ _ => .error ()
  merge := fun a b => (a, .no b)

/-- A command family overriding `redo` (`apply` adds 1, `redo` adds 100), to
observe which operation `Record::redo` invokes. -/
def redoProbeImpl : Command Nat Nat Unit where
  apply := fun c r => .ok (c, r + 1)
  undo := fun c r => .ok (c, r - 1)
  redo := fun c r => .ok (c, r + 100)
  merge := fun a b => (a, .no b)

/-- A command family whose merge always answers `Annul`, to exercise the
annulment path of `Record::apply`. -/
def annulImpl : Command Nat Nat Unit where
  apply := fun c r => .ok (c, r + 1)
  undo := fun c r => .ok (c, r - 1)
  redo := fun c r => .ok (c, r + 1)
  merge := fun a _ => (a, .annul)

/-- A fresh record over receiver `Nat` built with the given limit
(`Record::builder().limit(k).build(0)`). -/
def limitRecord (k : Nat) : Record Nat Nat :=
  RecordBuilder.build ⟨0, k⟩ 0

/-- Records reachable from a freshly constructed record through non-failing
operations: apply, undo, redo, clear, set_saved and set_unsaved. -/
inductive Reachable (impl : Command R C E) : Record R C → Prop where
  | new (receiver : R) : Reachable impl (Record.new receiver)
  | build (b : RecordBuilder) (receiver : R) :
      Reachable impl (RecordBuilder.build b receiver)
  | apply (r : Record R C) (cmd : C) (r' : Record R C) (sigs : List Signal) (tl : List C) :
      Reachable impl r → Record.apply impl r cmd = (r', sigs, .ok tl) → Reachable impl r'
  | undo (r r' : Record R C) (sigs : List Signal) :
      Reachable impl r → Record.undo impl r = (r', sigs, some (.ok ())) → Reachable impl r'
  | redo (r r' : Record R C) (sigs : List Signal) :
      Reachable impl r → Record.redo impl r = (r', sigs, some (.ok ())) → Reachable impl r'
  | clear (r : Record R C) : Reachable impl r → Reachable impl (Record.clear r).1
  | setSaved (r : Record R C) : Reachable impl r → Reachable impl (Record.setSaved r).1
  | setUnsaved (r : Record R C) : Reachable impl r → Reachable impl (Record.setUnsaved r).1

/-! Helper lemmas shared by the claim theorems. -/

/-- `is_saved` holds exactly when the saved marker equals the cursor. -/
theorem isSaved_true_iff (r : Record R C) : r.isSaved = true ↔ r.saved = some r.cursor := by
  cases h : r.saved <;> simp [Record.isSaved, h]

/-- `is_saved` fails exactly when the saved marker differs from the cursor. -/
theorem isSaved_false_iff (r : Record R C) : r.isSaved = false ↔ r.saved ≠ some r.cursor := by
  cases h : r.saved <;> simp [Record.isSaved, h]

/-- The merge attempt never changes the length of the command list. -/
theorem mergeStep_length (impl : Command R C E) (cs : List C) (ws : Bool) (cmd : C) :
    (Record.mergeStep impl cs ws cmd).1.length = cs.length := by
  unfold Record.mergeStep
  cases hcs : cs.getLast? with
  | none => simp
  | some last =>
    have hne : cs ≠ [] := by
      intro h
      rw [h] at hcs
      simp at hcs
    cases ws with
    | true => simp
    | false =>
      simp [List.length_dropLast, Nat.sub_add_cancel (List.length_pos.mpr hne)]

/-- When the record was saved, or there is no top command, the merge attempt
does not consult `merge`: the command list is untouched and the new command
is the one to push. -/
theorem mergeStep_no_merge (impl : Command R C E) (cs : List C) (ws : Bool) (cmd : C)
    (h : ws = true ∨ cs = []) : Record.mergeStep impl cs ws cmd = (cs, some cmd) := by
  unfold Record.mergeStep
  rcases h with h | h
  · cases hcs : cs.getLast? <;> simp [h]
  · subst h
    simp

/-- When the record was not saved and a top command exists, the merge attempt
is the call `last.merge(cmd)` consumed through `err`. -/
theorem mergeStep_merge (impl : Command R C E) (cs : List C) (cmd last : C)
    (h : cs.getLast? = some last) :
    Record.mergeStep impl cs false cmd =
      (cs.dropLast ++ [(impl.merge last cmd).1], ((impl.merge last cmd).2).err) := by
  unfold Record.mergeStep
  rw [h]
  simp

/-- The push step keeps the command list length equal to the cursor when it
starts that way (the source's `debug_assert_eq!(self.cursor, self.len())`). -/
theorem pushStep_len (limit cursor : Nat) (sv : Option Nat) (cs : List C) (c? : Option C)
    (hlen : cs.length = cursor) :
    (Record.pushStep limit cursor sv cs c?).1.length =
      (Record.pushStep limit cursor sv cs c?).2.1 := by
  cases c? with
  | none => simpa [Record.pushStep] using hlen
  | some c =>
    by_cases h : limit ≠ 0 ∧ limit = cursor
    · obtain ⟨h1, h2⟩ := h
      simp only [Record.pushStep, if_pos (show limit ≠ 0 ∧ limit = cursor from ⟨h1, h2⟩),
        List.length_append, List.length_tail, List.length_cons, List.length_nil, hlen]
      omega
    · simp only [Record.pushStep, if_neg h]
      simp [hlen]

/-- The push step never shrinks the command list below the cursor. -/
theorem pushStep_len_ge (limit cursor : Nat) (sv : Option Nat) (cs : List C) (c? : Option C)
    (hlen : cs.length = cursor) :
    cursor ≤ (Record.pushStep limit cursor sv cs c?).1.length := by
  cases c? with
  | none => simp [Record.pushStep, hlen]
  | some c =>
    by_cases h : limit ≠ 0 ∧ limit = cursor
    · obtain ⟨h1, h2⟩ := h
      simp only [Record.pushStep, if_pos (show limit ≠ 0 ∧ limit = cursor from ⟨h1, h2⟩),
        List.length_append, List.length_tail, List.length_cons, List.length_nil, hlen]
      omega
    · simp only [Record.pushStep, if_neg h]
      simp [hlen]

/-- The repaired saved marker, when present, is at most the cursor. -/
theorem savedRepair_le (sv : Option Nat) (cursor s : Nat)
    (h : Record.savedRepair sv cursor = some s) : s ≤ cursor := by
  unfold Record.savedRepair at h
  cases sv with
  | none => simp at h
  | some k =>
    by_cases hk : cursor < k
    · simp [hk] at h
    · simp [hk] at h
      omega

/-- When the saved position lay strictly beyond the cursor, the repair step
clears it. -/
theorem savedRepair_none (cursor k : Nat) (h : cursor < k) :
    Record.savedRepair (some k) cursor = none := by
  simp [Record.savedRepair, h]

/-- A successful `Record::apply` is exactly the truncate/repair/merge/push
pipeline of the source: the returned tail is the dropped suffix, the new
record is built from `applyCore`, and the signals are those of step 6. -/
theorem apply_ok_elim (impl : Command R C E) (r : Record R C) (cmd : C)
    (r' : Record R C) (sigs : List Signal) (tl : List C)
    (h : Record.apply impl r cmd = (r', sigs, .ok tl)) :
    ∃ cmd2 recv2, impl.apply cmd r.receiver = .ok (cmd2, recv2) ∧
      tl = r.commands.drop r.cursor ∧
      r' = { commands := (Record.applyCore impl r cmd2).1, receiver := recv2,
             cursor := (Record.applyCore impl r cmd2).2.1, limit := r.limit,
             saved := (Record.applyCore impl r cmd2).2.2 } ∧
      sigs = [Signal.active r.cursor (Record.applyCore impl r cmd2).2.1] ++
        (if r.canRedo then [Signal.redo false] else []) ++
        (if !r.canUndo then [Signal.undo true] else []) ++
        (if r.isSaved then [Signal.saved false] else []) := by
  unfold Record.apply at h
  cases ha : impl.apply cmd r.receiver with
  | error e =>
    rw [ha] at h
    simp at h
  | ok p =>
    obtain ⟨cmd2, recv2⟩ := p
    rw [ha] at h
    simp only [Prod.mk.injEq] at h
    obtain ⟨h1, h2, h3⟩ := h
    refine ⟨cmd2, recv2, rfl, ?_, ?_, ?_⟩
    · cases h3
      rfl
    · exact h1.symm
    · exact h2.symm

/-- A failing `cmd.apply` makes `Record::apply` return at once with the
rejected command and the error, the record unchanged and no signal sent. -/
theorem apply_error_eq (impl : Command R C E) (r : Record R C) (cmd : C) (e : E)
    (h : impl.apply cmd r.receiver = .error e) :
    Record.apply impl r cmd = (r, [], .error ⟨cmd, e⟩) := by
  unfold Record.apply
  rw [h]

/-- The push step with no saved marker never re-creates one. -/
theorem pushStep_saved_none (limit cursor : Nat) (cs : List C) (c? : Option C) :
    (Record.pushStep limit cursor none cs c?).2.2 = none := by
  cases c? with
  | none => rfl
  | some c =>
    by_cases h : limit ≠ 0 ∧ limit = cursor
    · simp only [Record.pushStep, if_pos h]
      rfl
    · simp only [Record.pushStep, if_neg h]

/-- The push-step equation when there is nothing to push. -/
theorem pushStep_none_eq (limit cursor : Nat) (sv : Option Nat) (cs : List C) :
    Record.pushStep limit cursor sv cs none = (cs, cursor, sv) := rfl

/-- The push-step equation when the limit is reached. -/
theorem pushStep_pop_eq (limit cursor : Nat) (sv : Option Nat) (cs : List C) (c : C)
    (h : limit ≠ 0 ∧ limit = cursor) :
    Record.pushStep limit cursor sv cs (some c) =
      (cs.tail ++ [c], cursor, sv.bind fun s => if s = 0 then none else some (s - 1)) := by
  simp only [Record.pushStep, if_pos h]

/-- The push-step equation when the record may still grow. -/
theorem pushStep_push_eq (limit cursor : Nat) (sv : Option Nat) (cs : List C) (c : C)
    (h : ¬(limit ≠ 0 ∧ limit = cursor)) :
    Record.pushStep limit cursor sv cs (some c) = (cs ++ [c], cursor + 1, sv) := by
  simp only [Record.pushStep, if_neg h]

/-- Only an actual merge attempt can absorb the command, and the attempt is
made only when the record was not saved. -/
theorem mergeStep_snd_none (impl : Command R C E) (cs : List C) (ws : Bool) (cmd : C)
    (h : (Record.mergeStep impl cs ws cmd).2 = none) : ws = false := by
  unfold Record.mergeStep at h
  cases hcs : cs.getLast? with
  | none =>
    rw [hcs] at h
    simp at h
  | some last =>
    rw [hcs] at h
    cases ws with
    | true => simp at h
    | false => rfl

/-- A surviving repaired marker was the original one, bounded by the cursor. -/
theorem savedRepair_eq_some (sv : Option Nat) (cursor s : Nat)
    (h : Record.savedRepair sv cursor = some s) : sv = some s ∧ s ≤ cursor := by
  unfold Record.savedRepair at h
  cases sv with
  | none => simp at h
  | some k =>
    by_cases hk : cursor < k
    · simp [hk] at h
    · simp [hk] at h
      subst h
      exact ⟨rfl, by omega⟩

/-- Under the cursor invariant, the truncated prefix has the cursor's length. -/
theorem take_cursor_length (r : Record R C) (hcl : r.cursor ≤ r.commands.length) :
    (r.commands.take r.cursor).length = r.cursor := by
  simp [List.length_take]
  omega

/-! The claim theorems. -/

/-- C1: a successful `Record::apply` removes the commands at indices
`[cursor, len)` and returns them in order as the tail; afterwards
`cursor == len`; and a saved marker strictly beyond the (post-truncation)
cursor becomes `None`. -/
theorem record_apply_truncates_tail (impl : Command R C E) (r : Record R C) (cmd : C)
    (hcl : r.cursor ≤ r.commands.length) (r' : Record R C) (sigs : List Signal) (tl : List C)
    (h : Record.apply impl r cmd = (r', sigs, .ok tl)) :
    tl = r.commands.drop r.cursor ∧ r'.cursor = r'.len ∧
      (∀ k, r.saved = some k → r.cursor < k → r'.saved = none) := by
  obtain ⟨cmd2, recv2, ha, htl, hr, hs⟩ := apply_ok_elim impl r cmd r' sigs tl h
  subst hr
  refine ⟨htl, ?_, ?_⟩
  · show (Record.applyCore impl r cmd2).2.1 = (Record.applyCore impl r cmd2).1.length
    unfold Record.applyCore
    have hm : (Record.mergeStep impl (r.commands.take r.cursor) r.isSaved cmd2).1.length
        = r.cursor := by
      rw [mergeStep_length, take_cursor_length r hcl]
    exact (pushStep_len r.limit r.cursor _ _ _ hm).symm
  · intro k hk hlt
    show (Record.applyCore impl r cmd2).2.2 = none
    unfold Record.applyCore
    have hrep : Record.savedRepair r.saved r.cursor = none := by
      rw [hk]
      exact savedRepair_none _ _ hlt
    rw [hrep]
    exact pushStep_saved_none _ _ _ _

/-- Witness for C1 at a concrete input: record `[1,2,3]`, cursor 1, saved 3;
applying a command returns the tail `[2,3]`, leaves `cursor == len`, and
clears the saved marker. -/
theorem record_apply_truncates_tail_witness :
    ([2, 3] : List Nat) = ([1, 2, 3] : List Nat).drop 1 ∧
    (⟨[1, 9], 4, 2, 0, none⟩ : Record Nat Nat).cursor
      = (⟨[1, 9], 4, 2, 0, none⟩ : Record Nat Nat).len ∧
    (∀ k, (some 3 : Option Nat) = some k → 1 < k →
      (⟨[1, 9], 4, 2, 0, none⟩ : Record Nat Nat).saved = none) :=
  record_apply_truncates_tail tagImpl ⟨[1, 2, 3], 3, 1, 0, some 3⟩ 9 (by decide)
    ⟨[1, 9], 4, 2, 0, none⟩ [Signal.active 1 2, Signal.redo false] [2, 3] rfl

/-- C2: command-level failures leave the engine unchanged and emit no
signal.  A failed apply returns the rejected command paired with the error;
a failed undo or redo returns `Some(Err)` with the command's error alone,
the cursor unchanged and the failing command still in the record (the whole
record is returned as it was). -/
theorem record_failed_ops_frame (impl : Command R C E) (r : Record R C) :
    (∀ cmd e, impl.apply cmd r.receiver = .error e →
        Record.apply impl r cmd = (r, [], .error ⟨cmd, e⟩)) ∧
    (∀ c e, r.canUndo = true → r.commands.get? (r.cursor - 1) = some c →
        impl.undo c r.receiver = .error e →
        Record.undo impl r = (r, [], some (.error e))) ∧
    (∀ c e, r.canRedo = true → r.commands.get? r.cursor = some c →
        impl.apply c r.receiver = .error e →
        Record.redo impl r = (r, [], some (.error e))) := by
  refine ⟨fun cmd e h => apply_error_eq impl r cmd e h, ?_, ?_⟩
  · intro c e hcu hg hu
    unfold Record.undo
    rw [hcu]
    simp only [Bool.not_true, Bool.false_eq_true, if_false, hg, hu]
  · intro c e hcr hg ha
    unfold Record.redo
    rw [hcr]
    simp only [Bool.not_true, Bool.false_eq_true, if_false, hg, ha]

/-- Witness for C2 at a concrete record `[3,4]` with cursor 1 and the
all-failing command family. -/
theorem record_failed_ops_frame_witness :
    Record.apply failImpl ⟨[3, 4], 5, 1, 0, none⟩ 7
      = (⟨[3, 4], 5, 1, 0, none⟩, [], .error ⟨7, ()⟩) ∧
    Record.undo failImpl ⟨[3, 4], 5, 1, 0, none⟩
      = (⟨[3, 4], 5, 1, 0, none⟩, [], some (.error ())) ∧
    Record.redo failImpl ⟨[3, 4], 5, 1, 0, none⟩
      = (⟨[3, 4], 5, 1, 0, none⟩, [], some (.error ())) := by
  obtain ⟨h1, h2, h3⟩ := record_failed_ops_frame failImpl ⟨[3, 4], 5, 1, 0, none⟩
  exact ⟨h1 7 () rfl, h2 3 () (by decide) rfl rfl, h3 4 () (by decide) rfl rfl⟩

/-- C7: the signal order of a successful apply — the cursor signal always
(old and new values), then `Redo(false)` if redo was available before, then
`Undo(true)` if undo was not available before, then `Saved(false)` if the
record was saved before. -/
theorem record_apply_signal_order (impl : Command R C E) (r : Record R C) (cmd : C)
    (r' : Record R C) (sigs : List Signal) (tl : List C)
    (h : Record.apply impl r cmd = (r', sigs, .ok tl)) :
    sigs = [Signal.active r.cursor r'.cursor] ++
      (if r.canRedo then [Signal.redo false] else []) ++
      (if r.canUndo then [] else [Signal.undo true]) ++
      (if r.isSaved then [Signal.saved false] else []) := by
  obtain ⟨cmd2, recv2, ha, htl, hr, hs⟩ := apply_ok_elim impl r cmd r' sigs tl h
  subst hr
  rw [hs]
  cases hcu : r.canUndo <;> simp

/-- Witness for C7: a fresh record (saved, cannot undo) applying one command
emits exactly `Active {0, 1}; Undo(true); Saved(false)`. -/
theorem record_apply_signal_order_witness :
    ([Signal.active 0 1, Signal.undo true, Signal.saved false] : List Signal) =
      [Signal.active 0 1] ++
      (if (Record.new 0 : Record Nat Nat).canRedo then [Signal.redo false] else []) ++
      (if (Record.new 0 : Record Nat Nat).canUndo then [] else [Signal.undo true]) ++
      (if (Record.new 0 : Record Nat Nat).isSaved then [Signal.saved false] else []) :=
  record_apply_signal_order tagImpl (Record.new 0) 7
    ⟨[7], 1, 1, 0, some 0⟩ [Signal.active 0 1, Signal.undo true, Signal.saved false] [] rfl

/-- C9: after every successful `Record::apply` the record is not in a saved
state, on every path (merged, pushed, or pushed with the front popped). -/
theorem record_apply_not_saved (impl : Command R C E) (r : Record R C) (cmd : C)
    (r' : Record R C) (sigs : List Signal) (tl : List C)
    (h : Record.apply impl r cmd = (r', sigs, .ok tl)) :
    r'.isSaved = false := by
  obtain ⟨cmd2, recv2, ha, htl, hr, hs⟩ := apply_ok_elim impl r cmd r' sigs tl h
  subst hr
  rw [isSaved_false_iff]
  show (Record.applyCore impl r cmd2).2.2 ≠ some (Record.applyCore impl r cmd2).2.1
  unfold Record.applyCore
  intro hbad
  cases hm2 : (Record.mergeStep impl (r.commands.take r.cursor) r.isSaved cmd2).2 with
  | none =>
    rw [hm2, pushStep_none_eq] at hbad
    have hws : r.isSaved = false := mergeStep_snd_none impl _ _ _ hm2
    obtain ⟨horig, hle⟩ := savedRepair_eq_some r.saved r.cursor _ hbad
    rw [isSaved_false_iff] at hws
    exact hws (by rw [horig])
  | some c0 =>
    rw [hm2] at hbad
    by_cases hif : r.limit ≠ 0 ∧ r.limit = r.cursor
    · rw [pushStep_pop_eq _ _ _ _ _ hif] at hbad
      simp only at hbad
      cases hsv : Record.savedRepair r.saved r.cursor with
      | none =>
        rw [hsv] at hbad
        simp at hbad
      | some s =>
        have hle : s ≤ r.cursor := savedRepair_le _ _ _ hsv
        rw [hsv] at hbad
        by_cases hs0 : s = 0
        · simp [hs0] at hbad
        · simp [hs0] at hbad
          omega
    · rw [pushStep_push_eq _ _ _ _ _ hif] at hbad
      simp only at hbad
      cases hsv : Record.savedRepair r.saved r.cursor with
      | none =>
        rw [hsv] at hbad
        simp at hbad
      | some s =>
        have hle : s ≤ r.cursor := savedRepair_le _ _ _ hsv
        rw [hsv] at hbad
        simp at hbad
        omega

/-- Witness for C9: applying onto a freshly saved record leaves it unsaved. -/
theorem record_apply_not_saved_witness :
    (⟨[7], 1, 1, 0, some 0⟩ : Record Nat Nat).isSaved = false :=
  record_apply_not_saved tagImpl (Record.new 0) 7
    ⟨[7], 1, 1, 0, some 0⟩ [Signal.active 0 1, Signal.undo true, Signal.saved false] [] rfl

/-- The record a successful apply returns, as a function of the command and
receiver the command-level apply produced. -/
theorem apply_fst (impl : Command R C E) (r : Record R C) (cmd c2 : C) (recv2 : R)
    (ha : impl.apply cmd r.receiver = .ok (c2, recv2)) :
    (Record.apply impl r cmd).1 =
      { commands := (Record.applyCore impl r c2).1, receiver := recv2,
        cursor := (Record.applyCore impl r c2).2.1, limit := r.limit,
        saved := (Record.applyCore impl r c2).2.2 } := by
  unfold Record.apply
  rw [ha]

/-- The full tuple a successful apply returns. -/
theorem apply_ok_eq (impl : Command R C E) (r : Record R C) (cmd c2 : C) (recv2 : R)
    (ha : impl.apply cmd r.receiver = .ok (c2, recv2)) :
    Record.apply impl r cmd =
      ({ commands := (Record.applyCore impl r c2).1, receiver := recv2,
         cursor := (Record.applyCore impl r c2).2.1, limit := r.limit,
         saved := (Record.applyCore impl r c2).2.2 },
       [Signal.active r.cursor (Record.applyCore impl r c2).2.1] ++
         (if r.canRedo then [Signal.redo false] else []) ++
         (if !r.canUndo then [Signal.undo true] else []) ++
         (if r.isSaved then [Signal.saved false] else []),
       .ok (r.commands.drop r.cursor)) := by
  unfold Record.apply
  rw [ha]

/-- A successful `Record::undo` decomposes into the guard, the indexed
command, its successful undo, and the in-place state update of the source. -/
theorem undo_ok_elim (impl : Command R C E) (r r' : Record R C) (sigs : List Signal)
    (h : Record.undo impl r = (r', sigs, some (.ok ()))) :
    ∃ c c2 recv2, r.canUndo = true ∧ r.commands.get? (r.cursor - 1) = some c ∧
      impl.undo c r.receiver = .ok (c2, recv2) ∧
      r' = { r with
             commands := r.commands.set (r.cursor - 1) c2
             receiver := recv2
             cursor := r.cursor - 1 } := by
  unfold Record.undo at h
  split at h
  · simp at h
  · rename_i hcu
    split at h
    · simp at h
    · rename_i c hg
      split at h
      · simp at h
      · rename_i p c2 recv2 hu
        simp only [Prod.mk.injEq] at h
        refine ⟨c, c2, recv2, ?_, hg, hu, h.1.symm⟩
        simpa using hcu

/-- A successful `Record::redo` decomposes into the guard, the indexed
command, its successful `apply` (the operation the source invokes), and the
in-place state update of the source. -/
theorem redo_ok_elim (impl : Command R C E) (r r' : Record R C) (sigs : List Signal)
    (h : Record.redo impl r = (r', sigs, some (.ok ()))) :
    ∃ c c2 recv2, r.canRedo = true ∧ r.commands.get? r.cursor = some c ∧
      impl.apply c r.receiver = .ok (c2, recv2) ∧
      r' = { r with
             commands := r.commands.set r.cursor c2
             receiver := recv2
             cursor := r.cursor + 1 } := by
  unfold Record.redo at h
  split at h
  · simp at h
  · rename_i hcr
    split at h
    · simp at h
    · rename_i c hg
      split at h
      · simp at h
      · rename_i p c2 recv2 ha
        simp only [Prod.mk.injEq] at h
        refine ⟨c, c2, recv2, ?_, hg, ha, h.1.symm⟩
        simpa using hcr

/-- The never-merging tag commands leave the merge attempt trivial. -/
theorem mergeStep_tagImpl (cs : List Nat) (ws : Bool) (cmd : Nat) :
    Record.mergeStep tagImpl cs ws cmd = (cs, some cmd) := by
  unfold Record.mergeStep
  cases hcs : cs.getLast? with
  | none => rfl
  | some last =>
    cases ws with
    | true => rfl
    | false =>
      simp only [tagImpl, Merge.err, Bool.false_eq_true, if_false, Prod.mk.injEq, and_true]
      exact List.dropLast_append_getLast? last (Option.mem_def.mpr hcs)

/-- C6 (the annulment claim): at the claim's own input — apply `a`, then
apply `b` where `a.merge(b)` answers `Annul` — record.rs does not pop the
previous top: starting from the one-command record the apply leaves
`len == 1` and `cursor == 1` (the claim demands a return to the pre-`a`
values `0`); and on no input at all does a successful apply leave fewer
commands than the pre-apply cursor, so the pop can never happen. -/
theorem record_apply_annul_no_pop :
    (Record.apply annulImpl ⟨[1], 1, 1, 0, none⟩ 2
      = (⟨[1], 2, 1, 0, none⟩, [Signal.active 1 1], .ok [])) ∧
    (∀ (A B D : Type) (impl : Command A B D) (r : Record A B) (cmd : B),
      r.cursor ≤ r.commands.length →
      ∀ r' sigs tl, Record.apply impl r cmd = (r', sigs, .ok tl) →
        r.cursor ≤ r'.len) := by
  constructor
  · rfl
  · intro A B D impl r cmd hcl r' sigs tl h
    obtain ⟨cmd2, recv2, ha, htl, hr, hs⟩ := apply_ok_elim impl r cmd r' sigs tl h
    subst hr
    show r.cursor ≤ (Record.applyCore impl r cmd2).1.length
    unfold Record.applyCore
    exact pushStep_len_ge _ _ _ _ _
      (by rw [mergeStep_length, take_cursor_length r hcl])

/-- C4 counterexample: `Record::redo` does not invoke the command's `redo`
operation.  With a command whose `apply` adds 1 and whose `redo` override
adds 100, redoing the single undone command yields receiver 1 — the
`apply` result — while the `redo` operation would have produced 100. -/
theorem record_redo_counterexample :
    (Record.redo redoProbeImpl ⟨[5], 0, 0, 0, none⟩).1.receiver = 1 ∧
    redoProbeImpl.redo 5 0 = .ok (5, 100) ∧ (1 : Nat) ≠ 100 :=
  ⟨rfl, rfl, by decide⟩

/-- C4 amended: `Record::redo` invokes the command's `apply` operation (a
user-defined `redo` override is ignored); it returns `None` exactly when
`cursor == len` (under the cursor invariant), and on success increments the
cursor by one, storing `apply`'s updated command and receiver. -/
theorem record_redo_amended (impl : Command R C E) (r : Record R C)
    (hcl : r.cursor ≤ r.commands.length) :
    ((Record.redo impl r).2.2 = none ↔ r.cursor = r.commands.length) ∧
    (∀ c c2 recv2, r.commands.get? r.cursor = some c →
      impl.apply c r.receiver = .ok (c2, recv2) →
      (Record.redo impl r).1.cursor = r.cursor + 1 ∧
      (Record.redo impl r).1.receiver = recv2 ∧
      (Record.redo impl r).1.commands = r.commands.set r.cursor c2 ∧
      (Record.redo impl r).2.2 = some (.ok ())) := by
  constructor
  · by_cases hlt : r.cursor < r.commands.length
    · have hcr : r.canRedo = true := by
        simp [Record.canRedo, Record.len, hlt]
      obtain ⟨c, hg⟩ : ∃ c, r.commands.get? r.cursor = some c := by
        cases hg : r.commands.get? r.cursor with
        | none =>
          rw [List.get?_eq_none] at hg
          omega
        | some c => exact ⟨c, rfl⟩
      unfold Record.redo
      rw [hcr]
      simp only [Bool.not_true, Bool.false_eq_true, if_false, hg]
      cases ha : impl.apply c r.receiver with
      | error e => simp; omega
      | ok p => simp; omega
    · have heq : r.cursor = r.commands.length := by omega
      have hcr : r.canRedo = false := by
        simp [Record.canRedo, Record.len]
        omega
      unfold Record.redo
      rw [hcr]
      simp [heq]
  · intro c c2 recv2 hg ha
    have hlt : r.cursor < r.commands.length := by
      by_contra hge
      rw [List.get?_eq_none.mpr (by omega)] at hg
      cases hg
    have hcr : r.canRedo = true := by
      simp [Record.canRedo, Record.len, hlt]
    unfold Record.redo
    rw [hcr]
    simp only [Bool.not_true, Bool.false_eq_true, if_false, hg, ha]
    exact ⟨trivial, trivial, trivial, trivial⟩

/-- Witness for the amended C4 at the record `[5]` with cursor 0: redo is
available (so the result is not `None`, and indeed `0 ≠ 1 = len`), and on
success the cursor becomes 1 with `apply`'s outputs stored. -/
theorem record_redo_amended_witness :
    ((Record.redo tagImpl (⟨[5], 0, 0, 0, none⟩ : Record Nat Nat)).2.2 = none
      ↔ (0 : Nat) = 1) ∧
    (∀ c c2 recv2, ([5] : List Nat).get? 0 = some c →
      tagImpl.apply c 0 = .ok (c2, recv2) →
      (Record.redo tagImpl (⟨[5], 0, 0, 0, none⟩ : Record Nat Nat)).1.cursor = 0 + 1 ∧
      (Record.redo tagImpl (⟨[5], 0, 0, 0, none⟩ : Record Nat Nat)).1.receiver = recv2 ∧
      (Record.redo tagImpl (⟨[5], 0, 0, 0, none⟩ : Record Nat Nat)).1.commands
        = ([5] : List Nat).set 0 c2 ∧
      (Record.redo tagImpl (⟨[5], 0, 0, 0, none⟩ : Record Nat Nat)).2.2
        = some (.ok ())) :=
  record_redo_amended tagImpl ⟨[5], 0, 0, 0, none⟩ (by decide)

/-- C5: the merge attempt happens if and only if a previous top command
exists and the record was not saved immediately before the apply.  First
conjunct: when the record was saved or there is no top, the whole apply is
independent of the `merge` implementation (merge is never consulted) — two
command families agreeing on `apply` produce identical results.  Second
conjunct: when the record was not saved and a top exists, the result is the
push step of `last.merge(cmd)` consumed through `err`.  Third conjunct: when
the record was saved, the incoming command itself is pushed. -/
theorem record_apply_merge_guard :
    (∀ (A B D : Type) (impl impl' : Command A B D), impl.apply = impl'.apply →
      ∀ (r : Record A B) (cmd : B), r.isSaved = true ∨ r.commands.take r.cursor = [] →
        Record.apply impl r cmd = Record.apply impl' r cmd) ∧
    (∀ (A B D : Type) (impl : Command A B D) (r : Record A B) (cmd c2 : B)
        (recv2 : A) (last : B), r.isSaved = false →
      (r.commands.take r.cursor).getLast? = some last →
      impl.apply cmd r.receiver = .ok (c2, recv2) →
      (Record.apply impl r cmd).1 =
        { commands := (Record.applyCore impl r c2).1, receiver := recv2,
          cursor := (Record.applyCore impl r c2).2.1, limit := r.limit,
          saved := (Record.applyCore impl r c2).2.2 } ∧
      Record.applyCore impl r c2 =
        Record.pushStep r.limit r.cursor (Record.savedRepair r.saved r.cursor)
          ((r.commands.take r.cursor).dropLast ++ [(impl.merge last c2).1])
          ((impl.merge last c2).2).err) ∧
    (∀ (A B D : Type) (impl : Command A B D) (r : Record A B) (cmd c2 : B)
        (recv2 : A), r.isSaved = true →
      impl.apply cmd r.receiver = .ok (c2, recv2) →
      Record.applyCore impl r c2 =
        Record.pushStep r.limit r.cursor (Record.savedRepair r.saved r.cursor)
          (r.commands.take r.cursor) (some c2)) := by
  refine ⟨?_, ?_, ?_⟩
  · intro A B D impl impl' hap r cmd hskip
    have hskip' : r.isSaved = true ∨ r.commands.take r.cursor = [] := hskip
    cases ha : impl'.apply cmd r.receiver with
    | error e =>
      rw [apply_error_eq impl r cmd e (by rw [hap]; exact ha),
        apply_error_eq impl' r cmd e ha]
    | ok p =>
      obtain ⟨c2, recv2⟩ := p
      rw [apply_ok_eq impl r cmd c2 recv2 (by rw [hap]; exact ha),
        apply_ok_eq impl' r cmd c2 recv2 ha]
      have hm : Record.applyCore impl r c2 = Record.applyCore impl' r c2 := by
        unfold Record.applyCore
        rw [mergeStep_no_merge impl _ _ _ hskip', mergeStep_no_merge impl' _ _ _ hskip']
      rw [hm]
  · intro A B D impl r cmd c2 recv2 last hws hlast ha
    refine ⟨apply_fst impl r cmd c2 recv2 ha, ?_⟩
    unfold Record.applyCore
    rw [hws, mergeStep_merge impl _ c2 last hlast]
  · intro A B D impl r cmd c2 recv2 hws ha
    unfold Record.applyCore
    rw [mergeStep_no_merge impl _ _ _ (Or.inl hws)]

/-- C10: every freshly constructed record — `Record::new`, `From`,
`Default`, or `RecordBuilder::build`/`default` — starts with
`saved = Some(0)` and `cursor = 0`, is in a saved state, is empty, and can
neither undo nor redo. -/
theorem record_fresh_state (A B : Type) [Inhabited A] (receiver : A) (b : RecordBuilder) :
    (Record.new (C := B) receiver).saved = some 0 ∧
    (Record.new (C := B) receiver).cursor = 0 ∧
    (Record.new (C := B) receiver).isSaved = true ∧
    (Record.new (C := B) receiver).len = 0 ∧
    (Record.new (C := B) receiver).canUndo = false ∧
    (Record.new (C := B) receiver).canRedo = false ∧
    (RecordBuilder.build (R := A) (C := B) b receiver).saved = some 0 ∧
    (RecordBuilder.build (R := A) (C := B) b receiver).cursor = 0 ∧
    (RecordBuilder.build (R := A) (C := B) b receiver).isSaved = true ∧
    (RecordBuilder.build (R := A) (C := B) b receiver).len = 0 ∧
    (RecordBuilder.build (R := A) (C := B) b receiver).canUndo = false ∧
    (RecordBuilder.build (R := A) (C := B) b receiver).canRedo = false ∧
    (Record.defaultRecord (R := A) (C := B)).saved = some 0 ∧
    (Record.defaultRecord (R := A) (C := B)).cursor = 0 ∧
    (Record.defaultRecord (R := A) (C := B)).isSaved = true ∧
    (Record.defaultRecord (R := A) (C := B)).len = 0 ∧
    (Record.defaultRecord (R := A) (C := B)).canUndo = false ∧
    (Record.defaultRecord (R := A) (C := B)).canRedo = false ∧
    (Record.fromReceiver (C := B) receiver).saved = some 0 ∧
    (Record.fromReceiver (C := B) receiver).cursor = 0 ∧
    (Record.fromReceiver (C := B) receiver).isSaved = true ∧
    (Record.fromReceiver (C := B) receiver).len = 0 ∧
    (Record.fromReceiver (C := B) receiver).canUndo = false ∧
    (Record.fromReceiver (C := B) receiver).canRedo = false :=
  ⟨rfl, rfl, rfl, rfl, rfl, rfl, rfl, rfl, rfl, rfl, rfl, rfl,
   rfl, rfl, rfl, rfl, rfl, rfl, rfl, rfl, rfl, rfl, rfl, rfl⟩

/-- The repair step is the identity on a marker that is `Some(0)` or absent. -/
theorem savedRepair_id (sv : Option Nat) (cursor : Nat) (hsv : sv = some 0 ∨ sv = none) :
    Record.savedRepair sv cursor = sv := by
  rcases hsv with rfl | rfl <;> simp [Record.savedRepair]

/-- On a cursor-at-end record, applying a tag command reduces to the push
step of the source. -/
theorem tag_applyCore (cs : List Nat) (n k : Nat) (sv : Option Nat)
    (hsv : sv = some 0 ∨ sv = none) (c : Nat) :
    Record.applyCore tagImpl ⟨cs, n, cs.length, k, sv⟩ c
      = Record.pushStep k cs.length sv cs (some c) := by
  unfold Record.applyCore
  show Record.pushStep k cs.length (Record.savedRepair sv cs.length)
      (Record.mergeStep tagImpl (cs.take cs.length) _ c).1
      (Record.mergeStep tagImpl (cs.take cs.length) _ c).2 = _
  rw [mergeStep_tagImpl, savedRepair_id sv cs.length hsv, List.take_length]

/-- Folding the never-merging tag commands over a fresh record of limit `k`:
the commands kept are the last `k` applied, the cursor is capped at `k`, and
the `Some(0)` marker survives until the first pop. -/
theorem applyList_tag (k : Nat) (hk : k ≠ 0) (L : List Nat) :
    ∀ (cs : List Nat) (n : Nat) (sv : Option Nat), sv = some 0 ∨ sv = none →
      cs.length ≤ k →
      Record.applyList tagImpl ⟨cs, n, cs.length, k, sv⟩ L =
        ⟨(cs ++ L).drop (cs.length + L.length - k), n + L.length,
         min (cs.length + L.length) k, k,
         if cs.length + L.length ≤ k then sv else none⟩ := by
  induction L with
  | nil =>
    intro cs n sv hsv hcur
    simp only [Record.applyList, List.append_nil, List.length_nil, Nat.add_zero]
    rw [Nat.sub_eq_zero_of_le hcur]
    simp [Nat.min_eq_left hcur, hcur]
  | cons c L ih =>
    intro cs n sv hsv hcur
    rw [Record.applyList, apply_fst tagImpl ⟨cs, n, cs.length, k, sv⟩ c c (n + 1) rfl,
      tag_applyCore cs n k sv hsv c]
    by_cases hkc : k = cs.length
    · rw [pushStep_pop_eq k cs.length sv cs c ⟨hk, hkc⟩]
      have hsv2 : (sv.bind fun s => if s = 0 then none else some (s - 1)) = none := by
        rcases hsv with rfl | rfl <;> simp
      rw [hsv2]
      have hcs_ne : cs ≠ [] := by
        intro h0
        rw [h0] at hkc
        simp at hkc
        omega
      have hlen2 : (cs.tail ++ [c]).length = cs.length := by
        cases cs with
        | nil => exact absurd rfl hcs_ne
        | cons a t => simp
      rw [show (⟨cs.tail ++ [c], n + 1, cs.length, k, none⟩ : Record Nat Nat)
          = ⟨cs.tail ++ [c], n + 1, (cs.tail ++ [c]).length, k, none⟩ by rw [hlen2]]
      rw [ih (cs.tail ++ [c]) (n + 1) none (Or.inr rfl) (by rw [hlen2]; omega)]
      have key : (cs.tail ++ [c] ++ L).drop ((cs.tail ++ [c]).length + L.length - k)
          = (cs ++ c :: L).drop (cs.length + (c :: L).length - k) := by
        rw [show (cs.tail ++ [c]).length + L.length - k = L.length by rw [hlen2]; omega,
          show cs.length + (c :: L).length - k = L.length + 1 by
            simp only [List.length_cons]; omega]
        cases cs with
        | nil => exact absurd rfl hcs_ne
        | cons a t =>
          simp only [List.tail_cons, List.cons_append, List.drop_succ_cons,
            List.append_assoc, List.singleton_append, List.nil_append]
      have key2 : n + 1 + L.length = n + (c :: L).length := by
        simp only [List.length_cons]
        omega
      have key3 : min ((cs.tail ++ [c]).length + L.length) k
          = min (cs.length + (c :: L).length) k := by
        simp only [List.length_cons, hlen2]
        omega
      have key4 : (if (cs.tail ++ [c]).length + L.length ≤ k then (none : Option Nat)
            else none)
          = (if cs.length + (c :: L).length ≤ k then sv else none) := by
        simp only [List.length_cons, hlen2, ite_self]
        rw [if_neg (by omega)]
      rw [key, key2, key3, key4]
    · rw [pushStep_push_eq k cs.length sv cs c (by
        intro hand
        exact hkc hand.2)]
      rw [show (⟨cs ++ [c], n + 1, cs.length + 1, k, sv⟩ : Record Nat Nat)
          = ⟨cs ++ [c], n + 1, (cs ++ [c]).length, k, sv⟩ by simp]
      rw [ih (cs ++ [c]) (n + 1) sv hsv (by simp; omega)]
      have hlen3 : (cs ++ [c]).length + L.length = cs.length + (c :: L).length := by
        simp only [List.length_append, List.length_cons, List.length_nil]
        omega
      have key : ((cs ++ [c]) ++ L).drop ((cs ++ [c]).length + L.length - k)
          = (cs ++ c :: L).drop (cs.length + (c :: L).length - k) := by
        rw [hlen3, List.append_assoc, List.singleton_append]
      have key2 : n + 1 + L.length = n + (c :: L).length := by
        simp only [List.length_cons]
        omega
      have key3 : min ((cs ++ [c]).length + L.length) k
          = min (cs.length + (c :: L).length) k := by
        rw [hlen3]
      have key4 : (if (cs ++ [c]).length + L.length ≤ k then sv else none)
          = (if cs.length + (c :: L).length ≤ k then sv else none) := by
        rw [hlen3]
      rw [key, key2, key3, key4]

/-- The fold over a fresh limited record, in closed form. -/
theorem applyList_limitRecord (k : Nat) (hk : k ≠ 0) (L : List Nat) :
    Record.applyList tagImpl (limitRecord k) L =
      ⟨L.drop (L.length - k), L.length, min L.length k, k,
       if L.length ≤ k then some 0 else none⟩ := by
  have h := applyList_tag k hk L [] 0 (some 0) (Or.inl rfl) (by simp)
  simpa [limitRecord, RecordBuilder.build] using h

/-- C3: with a positive limit, a push that arrives with `cursor == limit`
pops the front command instead of growing — `len` stays `limit`, the cursor
is unchanged, and a present saved marker `Some(k)` is decremented
(`None` when it was 0, and already `None` when it lay beyond the cursor).
Consequently a fresh record of limit `k` holds exactly the commands applied
after `k` non-merging applies, and after `k+1` it still holds `k` of them
with the first discarded. -/
theorem record_apply_limit_bound :
    (∀ (A B D : Type) (impl : Command A B D) (r : Record A B) (cmd c2 : B) (recv2 : A),
      r.limit ≠ 0 → r.cursor = r.limit → r.cursor ≤ r.commands.length →
      impl.apply cmd r.receiver = .ok (c2, recv2) →
      ∀ cs' c', Record.mergeStep impl (r.commands.take r.cursor) r.isSaved c2
          = (cs', some c') →
        (Record.apply impl r cmd).1.len = r.limit ∧
        (Record.apply impl r cmd).1.cursor = r.cursor ∧
        (Record.apply impl r cmd).1.saved =
          (match r.saved with
           | some s => if r.cursor < s then none else if s = 0 then none else some (s - 1)
           | none => none)) ∧
    (∀ (k : Nat) (L : List Nat), k ≠ 0 → L.length = k →
      (Record.applyList tagImpl (limitRecord k) L).len = k ∧
      (Record.applyList tagImpl (limitRecord k) L).commands = L) ∧
    (∀ (k : Nat) (L : List Nat), k ≠ 0 → L.length = k + 1 →
      (Record.applyList tagImpl (limitRecord k) L).len = k ∧
      (Record.applyList tagImpl (limitRecord k) L).commands = L.drop 1) := by
  refine ⟨?_, ?_, ?_⟩
  · intro A B D impl r cmd c2 recv2 hlim hcur hcl ha cs' c' hm
    have hcore : Record.applyCore impl r c2 =
        Record.pushStep r.limit r.cursor (Record.savedRepair r.saved r.cursor)
          cs' (some c') := by
      unfold Record.applyCore
      rw [hm]
    have hlcs : cs'.length = r.cursor := by
      have h1 := mergeStep_length impl (r.commands.take r.cursor) r.isSaved c2
      rw [hm] at h1
      rw [h1, take_cursor_length r hcl]
    rw [apply_fst impl r cmd c2 recv2 ha]
    simp only [Record.len]
    rw [hcore, pushStep_pop_eq _ _ _ _ _ ⟨hlim, hcur.symm⟩]
    refine ⟨?_, rfl, ?_⟩
    · simp only [List.length_append, List.length_tail, List.length_cons,
        List.length_nil, hlcs]
      omega
    · show (Record.savedRepair r.saved r.cursor).bind
          (fun s => if s = 0 then none else some (s - 1)) = _
      cases hsv : r.saved with
      | none => simp [Record.savedRepair]
      | some s =>
        by_cases hlt : r.cursor < s
        · simp [Record.savedRepair, hlt]
        · by_cases hs0 : s = 0 <;> simp [Record.savedRepair, hlt, hs0]
  · intro k L hk hL
    rw [applyList_limitRecord k hk L, hL]
    refine ⟨?_, ?_⟩
    · simp [Record.len, hL]
    · simp
  · intro k L hk hL
    rw [applyList_limitRecord k hk L, hL]
    refine ⟨?_, ?_⟩
    · simp [Record.len, hL]
    · simp

/-- Preservation of the structural invariant by a successful apply. -/
theorem apply_preserves_inv (impl : Command R C E) (r : Record R C) (cmd : C)
    (r' : Record R C) (sigs : List Signal) (tl : List C)
    (h : Record.apply impl r cmd = (r', sigs, .ok tl))
    (hcl : r.cursor ≤ r.commands.length)
    (hlim : r.limit ≠ 0 → r.commands.length ≤ r.limit) :
    r'.cursor ≤ r'.commands.length ∧ (r'.limit ≠ 0 → r'.commands.length ≤ r'.limit) := by
  obtain ⟨c2, recv2, ha, htl, hr, hs⟩ := apply_ok_elim impl r cmd r' sigs tl h
  subst hr
  have hmlen : (Record.mergeStep impl (r.commands.take r.cursor) r.isSaved c2).1.length
      = r.cursor := by
    rw [mergeStep_length, take_cursor_length r hcl]
  constructor
  · show (Record.applyCore impl r c2).2.1 ≤ (Record.applyCore impl r c2).1.length
    unfold Record.applyCore
    rw [pushStep_len _ _ _ _ _ hmlen]
  · intro hl
    show (Record.applyCore impl r c2).1.length ≤ r.limit
    unfold Record.applyCore
    cases hm2 : (Record.mergeStep impl (r.commands.take r.cursor) r.isSaved c2).2 with
    | none =>
      rw [pushStep_none_eq]
      rw [hmlen]
      exact le_trans hcl (hlim hl)
    | some c0 =>
      by_cases hif : r.limit ≠ 0 ∧ r.limit = r.cursor
      · rw [pushStep_pop_eq _ _ _ _ _ hif]
        simp only [List.length_append, List.length_tail, List.length_cons,
          List.length_nil, hmlen]
        omega
      · rw [pushStep_push_eq _ _ _ _ _ hif]
        simp only [List.length_append, List.length_cons, List.length_nil, hmlen]
        have : r.limit ≠ r.cursor := fun he => hif ⟨hl, he⟩
        have := hlim hl
        omega

/-- C8: along every sequence of non-failing operations, `0 ≤ cursor ≤ len`
holds, and when `limit > 0` also `len ≤ limit`. -/
theorem record_reachable_invariant (impl : Command R C E) (r : Record R C)
    (h : Reachable impl r) :
    r.cursor ≤ r.len ∧ (r.limit ≠ 0 → r.len ≤ r.limit) := by
  simp only [Record.len]
  induction h with
  | new receiver => simp [Record.new]
  | build b receiver => simp [RecordBuilder.build]
  | apply r cmd r' sigs tl hreach happ ih =>
    exact apply_preserves_inv impl r cmd r' sigs tl happ ih.1 ih.2
  | undo r r' sigs hreach hun ih =>
    obtain ⟨c, c2, recv2, hcu, hg, hu, hr⟩ := undo_ok_elim impl r r' sigs hun
    subst hr
    simp only [List.length_set]
    exact ⟨by omega, ih.2⟩
  | redo r r' sigs hreach hre ih =>
    obtain ⟨c, c2, recv2, hcr, hg, ha, hr⟩ := redo_ok_elim impl r r' sigs hre
    subst hr
    have hlt : r.cursor < r.commands.length := by
      have := of_decide_eq_true hcr
      simpa [Record.len] using this
    simp only [List.length_set]
    exact ⟨by omega, ih.2⟩
  | clear r hreach ih => simp [Record.clear]
  | setSaved r hreach ih => simpa [Record.setSaved] using ih
  | setUnsaved r hreach ih => simpa [Record.setUnsaved] using ih

/-- Witness for C8 at the freshly constructed record. -/
theorem record_reachable_invariant_witness :
    (Record.new 0 : Record Nat Nat).cursor ≤ (Record.new 0 : Record Nat Nat).len ∧
    ((Record.new 0 : Record Nat Nat).limit ≠ 0 →
      (Record.new 0 : Record Nat Nat).len ≤ (Record.new 0 : Record Nat Nat).limit) :=
  record_reachable_invariant tagImpl (Record.new 0) (Reachable.new 0)

end Redo
